import Mathlib

/-
Verification development for the Chronologicon Engine.

The repository is a Node.js service: an asynchronous ingestion pipeline
(worker.js, eventService.js `processIngestionJob`) over a PostgreSQL-backed
job store and event store (db.js), plus temporal/hierarchical analytics
expressed as SQL queries.  This file shallowly embeds the parts of that
code the claims are about:

  * the job store row operations `updateJobProgress` and `setJobStatus`
    (db.js) as pure functions on a `Job` record,
  * the line decoding pipeline `detectDelimiter`, `parseEventLine`,
    `validateAndTransformEvent` (eventService.js),
  * the per-line ingestion loop of `processIngestionJob` and the
    surrounding worker step of worker.js `processNextJob`,
  * the claim protocol of `findAndLockJob` plus `setJobStatus(PROCESSING)`
    as an interleaving of atomic SQL statements,
  * the recursive timeline CTE of `getTimelineByRootId` as a level-by-level
    expansion,
  * the temporal-gap query `findLargestTemporalGap` with its two LAG
    windows and the `findTemporalGaps` service wrapper.

Modelling conventions:
  * timestamps are epoch milliseconds (`Int`); the JavaScript
    `new Date(s).getTime()` parser is passed in as a function
    `String → Option Int`, `none` standing for `NaN`;
  * `JSON.parse` of a whole line is passed in as `String → Option EventData`
    (`none` = the parser threw, triggering the delimited fallback), and
    `JSON.parse` of the minimal-layout metadata field as
    `String → Except String String` with the metadata value kept opaque;
  * database effects are explicit state passing; a call that can throw
    returns `Except String`, the error carrying the JavaScript message.
-/

namespace Chronologicon

/-- Decidable equality for fallible results, used to evaluate the model on
concrete inputs. -/
instance {ε α : Type} [DecidableEq ε] [DecidableEq α] : DecidableEq (Except ε α)
  | .ok a, .ok b =>
    if h : a = b then isTrue (by rw [h]) else isFalse (by simp [h])
  | .ok _, .error _ => isFalse (by simp)
  | .error _, .ok _ => isFalse (by simp)
  | .error a, .error b =>
    if h : a = b then isTrue (by rw [h]) else isFalse (by simp [h])

/-- JavaScript string truthiness used by the source's `x || null` idiom:
a missing field and the empty string both collapse to null. -/
def jsStr : Option String → Option String
  | some s => if s = "" then none else some s
  | none => none

/-- Split a character list at every occurrence of the character `c`
(JavaScript `String.prototype.split`; every delimiter the source splits
on — newline, comma, pipe, tab, semicolon — is a single character). -/
def splitChar (c : Char) : List Char → List (List Char)
  | [] => [[]]
  | a :: rest =>
    match splitChar c rest with
    | [] => [[]]
    | h :: t => if a == c then [] :: h :: t else (a :: h) :: t

/-- `s.split(c)` on strings. -/
def strSplit (s : String) (c : Char) : List String :=
  (splitChar c s.toList).map String.mk

/-- The whitespace characters occurring in the modelled inputs
(JavaScript `trim` strips the full Unicode set; the inputs here are
ASCII). -/
def isWs (c : Char) : Bool := c == ' ' || c == '\t' || c == '\n' || c == '\r'

/-- Strip whitespace from both ends of a character list. -/
def trimChars (l : List Char) : List Char :=
  ((l.dropWhile isWs).reverse.dropWhile isWs).reverse

/-- `s.trim()`. -/
def strTrim (s : String) : String := String.mk (trimChars s.toList)

/-- ASCII lowercasing of one character. -/
def jsLower (c : Char) : Char :=
  if 65 ≤ c.toNat ∧ c.toNat ≤ 90 then Char.ofNat (c.toNat + 32) else c

/-- `s.toLowerCase()`. -/
def strLower (s : String) : String := String.mk (s.toList.map jsLower)

/-- Stable insertion of one element into a sorted list. -/
def insertSorted (le : α → α → Bool) (a : α) : List α → List α
  | [] => [a]
  | b :: l => if le a b then a :: b :: l else b :: insertSorted le a l

/-- Stable insertion sort, the model of SQL `ORDER BY`. -/
def sortBy (le : α → α → Bool) : List α → List α
  | [] => []
  | a :: l => insertSorted le a (sortBy le l)

/-- Prefix test on character lists. -/
def prefMatch : List Char → List Char → Bool
  | [], _ => true
  | _ :: _, [] => false
  | a :: as, b :: bs => a == b && prefMatch as bs

/-- Substring search, the JavaScript `String.prototype.includes`. -/
def subSearch : List Char → List Char → Bool
  | [], pat => prefMatch pat []
  | l@(_ :: rest), pat => prefMatch pat l || subSearch rest pat

/-- `s.includes(pat)` on strings. -/
def strHasSub (s pat : String) : Bool := subSearch s.toList pat.toList

/-- The source's `part.replace(/^"|"$/g, '')`: drop one leading and one
trailing double-quote character when present. -/
def stripQuotes (s : String) : String :=
  let l := s.toList
  let l1 := if l.head? = some '"' then l.drop 1 else l
  let l2 := if l1.getLast? = some '"' then l1.dropLast else l1
  String.mk l2

/-- The `JOB_STATUS` enum of the schema. -/
inductive JobStatus
  | PENDING
  | PROCESSING
  | COMPLETED
  | FAILED
deriving DecidableEq, Repr

/-- One row of `ingestion_jobs`.  The `start_time` / `end_time` timestamp
columns are abstracted to stamped-or-not flags, which is all the claims
inspect. -/
structure Job where
  status : JobStatus
  totalLines : Option Int
  processedLines : Int
  errorLines : Int
  errors : List String
  startTimeSet : Bool
  endTimeSet : Bool
deriving DecidableEq, Repr

/-- db.js `updateJobProgress(jobId, { processed, errors, totalLines })`:
one UPDATE overwriting `processed_lines`, `error_lines` (always the length
of the given errors array), `errors`, and `total_lines` only when a value
was supplied. -/
def updateJobProgress (j : Job) (processed : Int) (errors : List String)
    (totalLines : Option Int) : Job :=
  match totalLines with
  | some t =>
    { j with processedLines := processed, errorLines := errors.length,
             errors := errors, totalLines := some t }
  | none =>
    { j with processedLines := processed, errorLines := errors.length,
             errors := errors }

/-- db.js `setJobStatus(jobId, status, errors = [])`: one UPDATE setting
`status`, stamping `start_time` on PROCESSING and `end_time` on
COMPLETED/FAILED, and — only when the given array is non-empty — SETTING
the `errors` column to exactly that array (the SQL assigns `errors = $3`;
nothing is appended and `error_lines` is not touched). -/
def setJobStatus (j : Job) (status : JobStatus) (errors : List String) : Job :=
  let j1 := { j with status := status }
  let j2 := if status = .PROCESSING then { j1 with startTimeSet := true } else j1
  let j3 := if status = .COMPLETED ∨ status = .FAILED then { j2 with endTimeSet := true } else j2
  if errors.length > 0 then { j3 with errors := errors } else j3

/-- The candidate event produced by decoding one line, before validation:
the field bag `eventData` of eventService.js.  Fields a decoder did not
set are `none` (JavaScript `undefined`). -/
structure EventData where
  eventId : Option String := none
  eventName : Option String := none
  description : Option String := none
  startDate : Option String := none
  endDate : Option String := none
  parentId : Option String := none
  parentEventId : Option String := none
  metadata : Option String := none
deriving DecidableEq, Repr

/-- The validated event record returned by `validateAndTransformEvent`,
i.e. what `db.batchInsertEvents` writes into `historical_events`.
`startDate` / `endDate` are the parsed epoch-millisecond values (the
source normalises them with `toISOString`, a bijection on valid dates). -/
structure ValidEvent where
  eventId : Option String
  eventName : String
  description : Option String
  startDate : Int
  endDate : Int
  durationMinutes : Int
  parentEventId : Option String
  metadata : Option String
deriving DecidableEq, Repr

/-- eventService.js `validateAndTransformEvent(eventData, lineNumber)`:
require a truthy string name, truthy start/end date fields, parseable
dates, strictly increasing dates; compute
`durationMinutes = Math.ceil((end - start) / 60000)`; and build the event,
taking the parent from `eventData.parentId || null` (the `parentEventId`
input field is never read). -/
def validateAndTransformEvent (jsDate : String → Option Int) (d : EventData) :
    Except String ValidEvent :=
  match jsStr d.eventName with
  | none => .error "Event name is required and must be a string"
  | some name =>
    match jsStr d.startDate, jsStr d.endDate with
    | some sd, some ed =>
      match jsDate sd, jsDate ed with
      | none, _ => .error "Invalid date format. Use ISO 8601 format."
      | some _, none => .error "Invalid date format. Use ISO 8601 format."
      | some s, some e =>
        if s ≥ e then .error "Start date must be before end date"
        else
          .ok { eventId := d.eventId,
                eventName := strTrim name,
                description := (jsStr d.description).map strTrim,
                startDate := s,
                endDate := e,
                durationMinutes := ((((e - s).toNat + 59999) / 60000 : Nat) : Int),
                parentEventId := jsStr d.parentId,
                metadata := jsStr d.metadata }
    | _, _ => .error "Start date and end date are required"

/-- JavaScript `parts[i]` followed by truthiness: out-of-range access is
`undefined` and the empty string is falsy, both yielding null. -/
def jsIdx (parts : List String) (i : Nat) : Option String :=
  jsStr (some (parts.getD i ""))

/-- eventService.js `parseEventLine(line, lineNumber, delimiter)`: split on
the delimiter, strip surrounding quotes and trim each part; fewer than 4
fields throws; 7 or more fields uses the rich layout
(id, name, start, end, parent, researchValue, description) mapping the
parent column to `parentId` unless falsy or the literal `NULL`; otherwise
the minimal layout (name, description, start, end, parent, metadata)
mapping the parent column to `parentEventId`.  The rich layout's
`researchValue` object is carried as an opaque non-empty string (it is a
truthy object in the source; its `parseInt` content is interpreted by no
claim); the minimal layout's metadata field is `JSON.parse`d and a parse
failure throws out of this function. -/
def parseEventLine (jsonAny : String → Except String String) (line : String)
    (delimiter : Char) : Except String EventData :=
  let parts := (strSplit line delimiter).map (fun p => strTrim (stripQuotes p))
  if parts.length < 4 then
    .error ("Invalid format. Expected at least 4 fields, got " ++ toString parts.length)
  else if parts.length ≥ 7 then
    .ok { eventId := some (parts.getD 0 ""),
          eventName := some (parts.getD 1 ""),
          description := jsIdx parts 6,
          startDate := some (parts.getD 2 ""),
          endDate := some (parts.getD 3 ""),
          parentId := (match jsIdx parts 4 with
            | some p => if p = "NULL" then none else some p
            | none => none),
          parentEventId := none,
          metadata := some ("researchValue=" ++ parts.getD 5 "") }
  else
    (match jsIdx parts 5 with
      | none => Except.ok (none : Option String)
      | some v => (jsonAny v).map (fun m => some m)).map
      (fun m =>
        { eventId := none,
          eventName := some (parts.getD 0 ""),
          description := jsIdx parts 1,
          startDate := some (parts.getD 2 ""),
          endDate := some (parts.getD 3 ""),
          parentId := none,
          parentEventId := jsIdx parts 4,
          metadata := m })

/-- eventService.js `detectDelimiter(lines)`: sample the first line that is
non-blank and does not start with `#` (falling back to the first line),
and pick, in order, the delimiter among comma, pipe, tab, semicolon that
splits the sample into strictly the most fields. -/
def detectDelimiter (lines : List String) : Char :=
  let testLine? := match lines.find? (fun l => strTrim l != "" && !(prefMatch ['#'] l.toList)) with
    | some l => some l
    | none => lines.head?
  match testLine? with
  | none => ','
  | some testLine =>
    let pick := fun (best : Char × Nat) (d : Char) =>
      let n := (strSplit testLine d).length
      if n > best.2 then (d, n) else best
    (List.foldl pick (',', 0) [',', '|', '\t', ';']).1

/-- The header detection of `processIngestionJob`: the lowercased line
contains `eventid`, `event_id` or `eventname`. -/
def isHeaderLine (line : String) : Bool :=
  strHasSub (strLower line) "eventid" || strHasSub (strLower line) "event_id" ||
    strHasSub (strLower line) "eventname"

/-- A line-scoped error message: `` `Line ${i + 1}: ${error.message}` ``. -/
def lineMsg (i : Nat) (msg : String) : String :=
  "Line " ++ toString (i + 1) ++ ": " ++ msg

/-- The environment of one `processIngestionJob` run: the JavaScript
library functions and I/O outcomes the run consumes. -/
structure IngestParams where
  /-- `JSON.parse` applied to a whole (trimmed) line; `none` = it threw. -/
  jsonParse : String → Option EventData
  /-- `JSON.parse` applied to the minimal layout's metadata field. -/
  jsonAny : String → Except String String
  /-- `new Date(s).getTime()` in epoch milliseconds; `none` = `NaN`. -/
  jsDate : String → Option Int
  /-- `fs.readFile` of the job's source file. -/
  fileRead : Except String String
  /-- `db.batchInsertEvents([validatedEvent])` at line index `i`:
  `some msg` = the store write threw with that message. -/
  insertRes : Nat → Option String

/-- Decode-and-validate one (already trimmed-nonempty) line: `JSON.parse`
first, falling back to delimited parsing, then validation. -/
def lineOutcome (ps : IngestParams) (delim : Char) (line : String) :
    Except String ValidEvent :=
  let t := strTrim line
  match ps.jsonParse t with
  | some d => validateAndTransformEvent ps.jsDate d
  | none => (parseEventLine ps.jsonAny t delim).bind (validateAndTransformEvent ps.jsDate)

/-- The mutable locals of the `processIngestionJob` line loop, plus the
job-store row and the list of events written to the event store. -/
structure LoopSt where
  processedCount : Nat
  errors : List String
  inserted : List ValidEvent
  isFirstLine : Bool
  job : Job
deriving Repr

/-- One iteration of the `for` loop of `processIngestionJob` at line index
`i`: skip blank lines; skip a leading header line; otherwise decode,
validate, write to the event store and report progress, any failure in
that try-scope (validation or the store write) being caught and recorded
as a line-scoped error. -/
def processLine (ps : IngestParams) (delim : Char) (i : Nat) (line : String)
    (st : LoopSt) : LoopSt :=
  if strTrim line = "" then st
  else if st.isFirstLine && isHeaderLine (strTrim line) then { st with isFirstLine := false }
  else
    let st1 := { st with isFirstLine := false }
    match lineOutcome ps delim line, ps.insertRes i with
    | .error m, _ => { st1 with errors := st1.errors ++ [lineMsg i m] }
    | .ok _, some m => { st1 with errors := st1.errors ++ [lineMsg i m] }
    | .ok v, none =>
      { st1 with processedCount := st1.processedCount + 1,
                 inserted := st1.inserted ++ [v],
                 job := updateJobProgress st1.job ((st1.processedCount + 1 : Nat) : Int)
                          st1.errors none }

/-- The whole line loop. -/
def goLines (ps : IngestParams) (delim : Char) : Nat → LoopSt → List String → LoopSt
  | _, st, [] => st
  | i, st, l :: rest => goLines ps delim (i + 1) (processLine ps delim i l st) rest

/-- `fileContent.split('\n').filter(line => line.trim() !== '')`. -/
def nonEmptyLines (content : String) : List String :=
  (strSplit content '\n').filter (fun l => strTrim l != "")

/-- Result of one `processIngestionJob` run: the job-store row and the
events written to the event store. -/
structure ProcResult where
  job : Job
  inserted : List ValidEvent
deriving Repr

/-- eventService.js `processIngestionJob(job)`: read the file (a read
failure throws out of the function), report
`totalLines = lines.length - 1`, detect the delimiter, run the line loop,
then issue the final progress report.  The batching accumulator `events`
stays empty in the source (its push is commented out), so the trailing
bulk insert never fires. -/
def processIngestionJob (ps : IngestParams) (job : Job) : Except String ProcResult :=
  match ps.fileRead with
  | .error msg => .error msg
  | .ok content =>
    let lines := nonEmptyLines content
    let job1 := updateJobProgress job 0 [] (some ((lines.length : Int) - 1))
    let delim := detectDelimiter lines
    let st0 : LoopSt :=
      { processedCount := 0, errors := [], inserted := [], isFirstLine := true, job := job1 }
    let fin := goLines ps delim 0 st0 lines
    let job2 := updateJobProgress fin.job (fin.processedCount : Int) fin.errors none
    .ok { job := job2, inserted := fin.inserted }

/-- Result of one worker cycle on a claimed job. -/
structure RunResult where
  job : Job
  stored : List ValidEvent
deriving Repr

/-- worker.js `processNextJob`, after a job has been claimed: set
PROCESSING, run `processIngestionJob`, then set COMPLETED, or on a thrown
error set FAILED recording that error's message. -/
def runClaimedJob (ps : IngestParams) (job : Job) : RunResult :=
  let j1 := setJobStatus job .PROCESSING []
  match processIngestionJob ps j1 with
  | .ok r => { job := setJobStatus r.job .COMPLETED [], stored := r.inserted }
  | .error msg => { job := setJobStatus j1 .FAILED [msg], stored := [] }

/-! ## Job claiming under concurrency (worker.js + db.js `findAndLockJob`)

Each `pool.query` call executes one SQL statement in its own implicit
transaction.  `findAndLockJob` therefore acquires its
`FOR UPDATE SKIP LOCKED` row lock and releases it again when that single
SELECT statement commits; the subsequent `setJobStatus(jobId,
'PROCESSING')` is a separate atomic statement.  The model below runs two
workers, each executing the two statements of its claim phase as atomic
steps under an explicit interleaving schedule. -/

/-- A job row as seen by the claim protocol: id and status, the list being
ordered by ascending `created_at`. -/
structure WJob where
  jobId : String
  status : JobStatus
deriving DecidableEq, Repr

/-- The shared database plus each worker's local state: the job it claimed
and its program counter (0 = about to run `findAndLockJob`, 1 = about to
run `setJobStatus(PROCESSING)`, 2 = claim phase done). -/
structure ClaimSys where
  jobs : List WJob
  /-- Row locks held by open transactions.  Every statement in the source
  runs in its own implicit transaction, so this is empty between steps. -/
  locked : List String
  w0claim : Option String
  w1claim : Option String
  w0pc : Nat
  w1pc : Nat
deriving DecidableEq, Repr

/-- db.js `findAndLockJob`: `SELECT ... WHERE status = 'PENDING' ORDER BY
created_at ASC LIMIT 1 FOR UPDATE SKIP LOCKED`, executed and committed as
one statement: it returns the oldest PENDING row not locked by another
open transaction; the lock it takes is released at the statement's own
commit, so the database state is unchanged. -/
def findAndLockJob (s : ClaimSys) : Option String :=
  (s.jobs.find? (fun j => j.status == .PENDING && !(s.locked.contains j.jobId))).map
    (fun j => j.jobId)

/-- The UPDATE issued by `setJobStatus(jobId, 'PROCESSING')`, restricted to
the status column the claim protocol reads. -/
def markProcessing (jobs : List WJob) (jid : String) : List WJob :=
  jobs.map (fun j => if j.jobId = jid then { j with status := .PROCESSING } else j)

/-- One atomic statement of worker `w` (`false` = worker 0, `true` =
worker 1): at pc 0 run `findAndLockJob` and store the result locally; at
pc 1, if a job was claimed, run `setJobStatus(PROCESSING)` on it. -/
def claimStep (w : Bool) (s : ClaimSys) : ClaimSys :=
  if w = false then
    if s.w0pc = 0 then { s with w0claim := findAndLockJob s, w0pc := 1 }
    else if s.w0pc = 1 then
      match s.w0claim with
      | some jid => { s with jobs := markProcessing s.jobs jid, w0pc := 2 }
      | none => { s with w0pc := 2 }
    else s
  else
    if s.w1pc = 0 then { s with w1claim := findAndLockJob s, w1pc := 1 }
    else if s.w1pc = 1 then
      match s.w1claim with
      | some jid => { s with jobs := markProcessing s.jobs jid, w1pc := 2 }
      | none => { s with w1pc := 2 }
    else s

/-- Run an explicit interleaving schedule of atomic statements. -/
def runSched : List Bool → ClaimSys → ClaimSys
  | [], s => s
  | w :: rest, s => runSched rest (claimStep w s)

/-! ## The timeline hierarchy query (db.js `getTimelineByRootId`)

The query is `WITH RECURSIVE event_hierarchy AS (base UNION ALL step)`:
the base level is the row whose `event_id` is the requested root, and each
further level joins `historical_events he` on
`he.parent_event_id = eh.event_id` against the previous level.  `UNION
ALL` performs no deduplication and the query has no cycle guard, so the
evaluation terminates exactly when some level is empty. -/

/-- A `historical_events` row, restricted to the columns the hierarchy
recursion touches. -/
structure StoredEvent where
  event_id : String
  parent_event_id : Option String
deriving DecidableEq, Repr

/-- One recursive step of the CTE: all rows whose parent is some row of
the previous level (one output row per matching join pair). -/
def hierStep (events : List StoredEvent) (level : List StoredEvent) : List StoredEvent :=
  level.flatMap (fun eh => events.filter (fun he => he.parent_event_id == some eh.event_id))

/-- The n-th level of the recursive CTE of `getTimelineByRootId`. -/
def hierLevel (events : List StoredEvent) (root : String) : Nat → List StoredEvent
  | 0 => events.filter (fun e => e.event_id == root)
  | n + 1 => hierStep events (hierLevel events root n)

/-- The recursive CTE terminates iff its level iteration reaches the empty
level. -/
def hierTerminates (events : List StoredEvent) (root : String) : Prop :=
  ∃ n, hierLevel events root n = []

/-! ## The temporal-gap query (db.js `findLargestTemporalGap` and
eventService.js `findTemporalGaps`)

The SQL computes, over events fully contained in the window and ordered
by ascending `start_date`, `LAG(end_date)` (the previous event's end); a
row's gap is positive when its start exceeds that previous end.  The
outer SELECT then filters `WHERE gap_minutes > 0` and computes
`LAG(event_id) OVER (ORDER BY start_date)` — a window function evaluated
AFTER the WHERE filter, i.e. over the positive-gap rows only — and sorts
descending by gap size. -/

/-- A `historical_events` row as read by the gap query.  Dates are epoch
milliseconds. -/
structure GEvent where
  event_id : String
  event_name : String
  start_date : Int
  end_date : Int
deriving DecidableEq, Repr

/-- A row of the `calculated_gaps` CTE: the event, its `LAG(end_date)`
value, and the gap in milliseconds (the SQL's `gap_minutes` is this value
divided by 60000; both are positive together, and the final ordering by
either agrees). -/
structure CalcRow where
  event : GEvent
  prevEnd : Option Int
  gapMs : Int
deriving DecidableEq, Repr

/-- Build one `calculated_gaps` row from the previous event in start
order. -/
def mkCalcRow (prev : Option GEvent) (e : GEvent) : CalcRow :=
  let pe := prev.map (fun p => p.end_date)
  { event := e, prevEnd := pe,
    gapMs := match pe with
      | some p => if e.start_date > p then e.start_date - p else 0
      | none => 0 }

/-- The `LAG` scan over the start-ordered event list. -/
def lagRows : Option GEvent → List GEvent → List CalcRow
  | _, [] => []
  | prev, e :: rest => mkCalcRow prev e :: lagRows (some e) rest

/-- One output row of the query: `gap_start` / `gap_end` (for kept rows,
the previous end and this event's start), the gap, the
`preceding_event` pair from `LAG(event_id), LAG(event_name)` over the
FILTERED rows, and the `following_event` pair. -/
structure GapRow where
  gap_start : Option Int
  gap_end : Int
  gapMs : Int
  preceding : Option (String × String)
  following_id : String
  following_name : String
deriving DecidableEq, Repr

/-- Build one output row; `prev` is the previous row of the filtered
positive-gap list in start order. -/
def mkGapRow (prev : Option CalcRow) (r : CalcRow) : GapRow :=
  { gap_start := r.prevEnd,
    gap_end := r.event.start_date,
    gapMs := r.gapMs,
    preceding := prev.map (fun p => (p.event.event_id, p.event.event_name)),
    following_id := r.event.event_id,
    following_name := r.event.event_name }

/-- The second `LAG` scan, over the positive-gap rows only. -/
def lagPrec : Option CalcRow → List CalcRow → List GapRow
  | _, [] => []
  | prev, r :: rest => mkGapRow prev r :: lagPrec (some r) rest

/-- `WHERE start_date >= $1 AND end_date <= $2`: events fully contained in
the window. -/
def containedEvents (events : List GEvent) (ws we : Int) : List GEvent :=
  events.filter (fun e => decide (ws ≤ e.start_date) && decide (e.end_date ≤ we))

/-- `ORDER BY start_date` (ties resolved stably, one of the orders the SQL
may return). -/
def sortByStart (l : List GEvent) : List GEvent :=
  sortBy (fun a b => decide (a.start_date ≤ b.start_date)) l

/-- The rows of `calculated_gaps` that survive `WHERE gap_minutes > 0`,
in start order. -/
def posRows (events : List GEvent) (ws we : Int) : List CalcRow :=
  (lagRows none (sortByStart (containedEvents events ws we))).filter
    (fun r => decide (r.gapMs > 0))

/-- db.js `findLargestTemporalGap(startDate, endDate)`: the filtered rows
with their post-filter `LAG(event_id)` preceding pair, ordered by gap size
descending. -/
def findLargestTemporalGap (events : List GEvent) (ws we : Int) : List GapRow :=
  sortBy (fun a b => decide (a.gapMs ≥ b.gapMs)) (lagPrec none (posRows events ws we))

/-- JavaScript `Math.round(gapMs / 60000)` for a non-negative gap. -/
def roundGapMinutes (ms : Int) : Int :=
  (2 * ms + 60000) / 120000

/-- A formatted gap of the service response. -/
structure FormattedGap where
  gapStart : Option Int
  gapEnd : Int
  gapDurationMinutes : Int
  precedingEvent : Option (String × String)
  followingEvent : String × String
deriving DecidableEq, Repr

/-- eventService.js `findTemporalGaps(startDate, endDate)`: validate the
window (both bounds must be valid dates — here already parsed — with
start strictly before end), format each row, and return the full list
with its head as the largest gap. -/
def findTemporalGaps (events : List GEvent) (ws we : Int) :
    Except String (Option FormattedGap × List FormattedGap) :=
  if ws ≥ we then .error "Start date must be before end date"
  else
    let gaps := (findLargestTemporalGap events ws we).map (fun g =>
      { gapStart := g.gap_start,
        gapEnd := g.gap_end,
        gapDurationMinutes := roundGapMinutes g.gapMs,
        precedingEvent := g.preceding,
        followingEvent := (g.following_id, g.following_name) : FormattedGap })
    .ok (gaps.head?, gaps)

/-! ## Concrete fixtures shared by witnesses and counterexamples -/

/-- A date-parser fixture: two parseable timestamps 90 minutes apart,
everything else `NaN`. -/
def sampleDate : String → Option Int := fun s =>
  if s = "S0" then some 0 else if s = "S90" then some 5400000 else none

/-- A `JSON.parse` fixture for plain delimited input files: every line
throws, so decoding falls through to `parseEventLine`. -/
def noJson : String → Option EventData := fun _ => none

/-- A metadata `JSON.parse` fixture: every value throws. -/
def noJsonMeta : String → Except String String := fun _ => .error "Unexpected token"

/-- A job row as `createIngestionJob` inserts it: PENDING, zero counters,
no timestamps. -/
def freshJob : Job :=
  { status := .PENDING, totalLines := none, processedLines := 0, errorLines := 0,
    errors := [], startTimeSet := false, endTimeSet := false }

/-- A two-line delimited file: one valid line, one malformed line. -/
def mixedFileParams : IngestParams :=
  { jsonParse := noJson, jsonAny := noJsonMeta, jsDate := sampleDate,
    fileRead := .ok "A,x,S0,S90\nbadline", insertRes := fun _ => none }

/-- A one-valid-line file whose event-store write throws. -/
def insertFailParams : IngestParams :=
  { jsonParse := noJson, jsonAny := noJsonMeta, jsDate := sampleDate,
    fileRead := .ok "A,x,S0,S90", insertRes := fun _ => some "Failed to insert events" }

/-- An empty source file. -/
def emptyFileParams : IngestParams :=
  { jsonParse := noJson, jsonAny := noJsonMeta, jsDate := sampleDate,
    fileRead := .ok "", insertRes := fun _ => none }

/-- A file holding only a recognized header line. -/
def headerOnlyParams : IngestParams :=
  { jsonParse := noJson, jsonAny := noJsonMeta, jsDate := sampleDate,
    fileRead := .ok "eventId,eventName,startDate,endDate", insertRes := fun _ => none }

/-- A single valid delimited line, store writes succeeding. -/
def goodLineParams : IngestParams :=
  { jsonParse := noJson, jsonAny := noJsonMeta, jsDate := sampleDate,
    fileRead := .ok "A,x,S0,S90", insertRes := fun _ => none }

/-! ## C9 — updateProgress is an idempotent overwrite -/

/-- C9: `updateProgress` is idempotent — calling it twice with the same
argument triple (processedLines, errors, totalLines?) leaves the job row
in the same observable state as calling it once, and `errorLines` is the
length of the given errors list. -/
theorem updateJobProgress_idempotent (j : Job) (p : Int) (e : List String)
    (t : Option Int) :
    updateJobProgress (updateJobProgress j p e t) p e t = updateJobProgress j p e t ∧
    (updateJobProgress j p e t).errorLines = (e.length : Int) ∧
    (updateJobProgress j p e t).processedLines = p ∧
    (updateJobProgress j p e t).errors = e := by
  cases t <;> exact ⟨rfl, rfl, rfl, rfl⟩

/-! ## C7 — setStatus does not append errors: it overwrites them -/

/-- A job mid-processing that has already accumulated two line errors. -/
def jobWithErrors : Job :=
  { status := .PROCESSING, totalLines := some 2, processedLines := 0, errorLines := 2,
    errors := ["Line 1: a", "Line 2: b"], startTimeSet := true, endTimeSet := false }

/-- C7 counterexample: `setJobStatus` with terminal status COMPLETED and an
accompanying error message REPLACES the existing two-element errors list
with the one given message — the list is not appended to, and it shrinks
from length 2 to length 1. -/
theorem setJobStatus_no_append :
    (setJobStatus jobWithErrors .COMPLETED ["late"]).errors = ["late"] ∧
    jobWithErrors.errors = ["Line 1: a", "Line 2: b"] ∧
    (setJobStatus jobWithErrors .COMPLETED ["late"]).errors.length = 1 ∧
    jobWithErrors.errors.length = 2 ∧
    (setJobStatus jobWithErrors .COMPLETED ["late"]).errors.length <
      jobWithErrors.errors.length := by
  exact ⟨rfl, rfl, rfl, rfl, by decide⟩

/-- C7 amended: `setStatus` called with COMPLETED or FAILED and a non-empty
list of accompanying error messages stamps `endTime` and sets the job's
errors column to exactly that list, discarding whatever was accumulated
before — so across setStatus and updateProgress calls the errors sequence
is overwritten, not append-only, and can shrink. -/
theorem setJobStatus_overwrites (j : Job) (s : JobStatus) (es : List String)
    (hes : es ≠ []) :
    (setJobStatus j s es).errors = es ∧
    (setJobStatus j s es).status = s ∧
    ((s = .COMPLETED ∨ s = .FAILED) → (setJobStatus j s es).endTimeSet = true) := by
  have hlen : 0 < es.length := List.length_pos.mpr hes
  cases s <;> simp [setJobStatus, hlen]

/-- Witness for `setJobStatus_overwrites` at a concrete job and message. -/
theorem setJobStatus_overwrites_witness :
    (["boom"] ≠ ([] : List String)) ∧
    ((setJobStatus jobWithErrors .FAILED ["boom"]).errors = ["boom"] ∧
      (setJobStatus jobWithErrors .FAILED ["boom"]).status = .FAILED ∧
      ((JobStatus.FAILED = .COMPLETED ∨ JobStatus.FAILED = .FAILED) →
        (setJobStatus jobWithErrors .FAILED ["boom"]).endTimeSet = true)) :=
  ⟨by decide, setJobStatus_overwrites jobWithErrors .FAILED ["boom"] (by decide)⟩

/-! ## C5 — the empty-file edge case -/

/-- C5: at the failing input (a file with zero non-empty lines) the code
reports `totalLines = lines.length - 1 = -1`, not the `0` the claim
requires; the header-only half of the claim does hold: a file holding only
a recognized header line completes with `processedLines = 0`, no errors,
and `totalLines = 0`. -/
theorem emptyFile_totalLines :
    (runClaimedJob emptyFileParams freshJob).job.totalLines = some (-1) ∧
    (runClaimedJob emptyFileParams freshJob).job.status = .COMPLETED ∧
    (runClaimedJob headerOnlyParams freshJob).job.processedLines = 0 ∧
    (runClaimedJob headerOnlyParams freshJob).job.errors = [] ∧
    (runClaimedJob headerOnlyParams freshJob).job.totalLines = some 0 ∧
    (runClaimedJob headerOnlyParams freshJob).job.status = .COMPLETED := by
  decide

/-! ## C2 — the claim protocol is not exclusive -/

/-- One PENDING job, two workers, neither having run yet. -/
def initialClaimSys : ClaimSys :=
  { jobs := [{ jobId := "j1", status := .PENDING }], locked := [],
    w0claim := none, w1claim := none, w0pc := 0, w1pc := 0 }

/-- C2: at the failing interleaving — worker 0 runs `findAndLockJob`,
worker 1 runs `findAndLockJob`, then each runs
`setJobStatus(PROCESSING)` — BOTH workers claim the single PENDING job
`j1` and both proceed to process it, because the `FOR UPDATE SKIP LOCKED`
row lock is released when the single-statement implicit transaction of
`pool.query` commits, before either worker marks the job PROCESSING. -/
theorem duplicate_claim_trace :
    (runSched [false, true, false, true] initialClaimSys).w0claim = some "j1" ∧
    (runSched [false, true, false, true] initialClaimSys).w1claim = some "j1" ∧
    (runSched [false, true, false, true] initialClaimSys).w0pc = 2 ∧
    (runSched [false, true, false, true] initialClaimSys).w1pc = 2 ∧
    (runSched [false, true, false, true] initialClaimSys).jobs =
      [{ jobId := "j1", status := .PROCESSING }] := by
  decide

/-! ## C6 — the timeline CTE does not terminate on cyclic parent data -/

/-- Two events whose `parent_event_id` links form a 2-cycle. -/
def cyclicEvents : List StoredEvent :=
  [ { event_id := "A", parent_event_id := some "B" },
    { event_id := "B", parent_event_id := some "A" } ]

/-- Each level of the recursive CTE on the cyclic pair alternates between
the two rows. -/
theorem hierLevel_cyclic (n : Nat) :
    hierLevel cyclicEvents "A" n = [{ event_id := "A", parent_event_id := some "B" }] ∨
    hierLevel cyclicEvents "A" n = [{ event_id := "B", parent_event_id := some "A" }] := by
  induction n with
  | zero => left; rfl
  | succ n ih =>
    rcases ih with h | h
    · right
      show hierStep cyclicEvents (hierLevel cyclicEvents "A" n) = _
      rw [h]; rfl
    · left
      show hierStep cyclicEvents (hierLevel cyclicEvents "A" n) = _
      rw [h]; rfl

/-- C6: on parent data forming a cycle reachable from the requested root,
every level of the `getTimelineByRootId` recursive CTE (UNION ALL, no
cycle guard) holds exactly one row — the iteration never reaches the
empty level that would end the recursion, so the query never terminates. -/
theorem timeline_cte_level_never_empty (n : Nat) :
    (hierLevel cyclicEvents "A" n).length = 1 := by
  rcases hierLevel_cyclic n with h | h <;> rw [h] <;> rfl

/-! ## C8 — only the `parentId` field reaches the stored event -/

/-- A structured (JSON) line that names its parent with the
`parentEventId` field, as the spec says is accepted. -/
def parentEventIdLine : EventData :=
  { eventName := some "X", startDate := some "S0", endDate := some "S90",
    parentEventId := some "P" }

/-- C8 counterexample: a structured line carrying its parent in the
`parentEventId` field, and a minimal-layout delimited line carrying its
parent in the 5th column (which `parseEventLine` maps to the
`parentEventId` field), both validate successfully — and both are written
with `parentEventId = null`, because `validateAndTransformEvent` reads
only `eventData.parentId`. -/
theorem parentEventId_field_dropped :
    parentEventIdLine.parentEventId = some "P" ∧
    (validateAndTransformEvent sampleDate parentEventIdLine).map
      (fun v => v.parentEventId) = .ok none ∧
    (parseEventLine noJsonMeta "N,desc,S0,S90,P" ',').map
      (fun d => d.parentEventId) = .ok (some "P") ∧
    ((parseEventLine noJsonMeta "N,desc,S0,S90,P" ',').bind
        (validateAndTransformEvent sampleDate)).map
      (fun v => v.parentEventId) = .ok none := by
  decide

/-- C8 amended: only a parent supplied through the `parentId` field
survives validation — `validateAndTransformEvent` is invariant under the
`parentEventId` input field (structured lines using `parentEventId`, and
the minimal delimited layout, therefore store a null parent), while a
truthy `parentId` (structured lines using `parentId`, and the rich ≥7
column layout, which maps its parent column to `parentId`) is written
through unchanged. -/
theorem parent_field_mapping :
    (∀ (jsD : String → Option Int) (d : EventData) (q : Option String),
        validateAndTransformEvent jsD { d with parentEventId := q } =
          validateAndTransformEvent jsD d) ∧
    (∀ (jsD : String → Option Int) (d : EventData) (v : ValidEvent) (p : String),
        validateAndTransformEvent jsD d = .ok v → d.parentId = some p → p ≠ "" →
        v.parentEventId = some p) := by
  constructor
  · intro jsD d q
    cases d
    rfl
  · intro jsD d v p hok hpid hp
    unfold validateAndTransformEvent at hok
    repeat' split at hok
    all_goals
      first
        | exact Except.noConfusion hok
        | (injection hok with hv
           rw [← hv]
           simp [jsStr, hpid, hp])

/-- Witness for `parent_field_mapping` at a concrete rich-layout line. -/
theorem parent_field_mapping_witness :
    ((parseEventLine noJsonMeta "id1,N,S0,S90,P,5,desc" ',').map
        (fun d => d.parentId) = .ok (some "P")) ∧
    ((parseEventLine noJsonMeta "id1,N,S0,S90,P,5,desc" ',').bind
        (validateAndTransformEvent sampleDate) =
      .ok { eventId := some "id1", eventName := "N", description := some "desc",
            startDate := 0, endDate := 5400000, durationMinutes := 90,
            parentEventId := some "P", metadata := some "researchValue=5" }) ∧
    ({ eventId := some "id1", eventName := "N", description := some "desc",
       startDate := 0, endDate := 5400000, durationMinutes := 90,
       parentEventId := some "P", metadata := some "researchValue=5" :
       ValidEvent }).parentEventId = some "P" := by
  refine ⟨by decide, by decide, ?_⟩
  exact (parent_field_mapping.2 sampleDate
    { eventId := some "id1", eventName := some "N", description := some "desc",
      startDate := some "S0", endDate := some "S90", parentId := some "P",
      parentEventId := none, metadata := some "researchValue=5" }
    { eventId := some "id1", eventName := "N", description := some "desc",
      startDate := 0, endDate := 5400000, durationMinutes := 90,
      parentEventId := some "P", metadata := some "researchValue=5" }
    "P" rfl rfl (by decide))

/-! ## Per-line classification and the loop characterization -/

/-- Whether a line decodes and validates successfully. -/
def lineOk (ps : IngestParams) (delim : Char) (l : String) : Bool :=
  match lineOutcome ps delim l with
  | .ok _ => true
  | .error _ => false

/-- The thrown message of a failing line (empty for a successful one). -/
def lineErrMsg (ps : IngestParams) (delim : Char) (l : String) : String :=
  match lineOutcome ps delim l with
  | .ok _ => ""
  | .error m => m

/-- How many lines from index `i` on are decoded, validated AND written
to the event store successfully. -/
def okCount (ps : IngestParams) (delim : Char) : Nat → List String → Nat
  | _, [] => 0
  | i, l :: rest =>
    (match lineOutcome ps delim l, ps.insertRes i with
      | .ok _, none => 1
      | _, _ => 0) + okCount ps delim (i + 1) rest

/-- The line-scoped error messages produced from index `i` on: one entry
per decode/validation failure or store-write failure, tagged with the
1-based line number. -/
def errorsOf (ps : IngestParams) (delim : Char) : Nat → List String → List String
  | _, [] => []
  | i, l :: rest =>
    (match lineOutcome ps delim l, ps.insertRes i with
      | .error m, _ => [lineMsg i m]
      | .ok _, some m => [lineMsg i m]
      | .ok _, none => []) ++ errorsOf ps delim (i + 1) rest

/-- The events written to the event store from index `i` on. -/
def insertedOf (ps : IngestParams) (delim : Char) : Nat → List String → List ValidEvent
  | _, [] => []
  | i, l :: rest =>
    (match lineOutcome ps delim l, ps.insertRes i with
      | .ok v, none => [v]
      | _, _ => []) ++ insertedOf ps delim (i + 1) rest

/-- Every line contributes exactly one unit, either to the error list or
to the success count. -/
theorem errorsOf_length_add_okCount (ps : IngestParams) (delim : Char) :
    ∀ (ls : List String) (i : Nat),
      (errorsOf ps delim i ls).length + okCount ps delim i ls = ls.length := by
  intro ls
  induction ls with
  | nil => intro i; simp [errorsOf, okCount]
  | cons l rest ih =>
    intro i
    have hih := ih (i + 1)
    rcases h1 : lineOutcome ps delim l with m | v
    · simp [errorsOf, okCount, h1]
      omega
    · rcases h2 : ps.insertRes i with _ | m2 <;>
        · simp [errorsOf, okCount, h1, h2]
          omega

/-- One non-blank, non-header-skipped loop iteration, component by
component. -/
theorem processLine_components (ps : IngestParams) (delim : Char) (i : Nat) (l : String)
    (st : LoopSt) (hl : strTrim l ≠ "")
    (hcond : (st.isFirstLine && isHeaderLine (strTrim l)) = false) :
    (processLine ps delim i l st).isFirstLine = false ∧
    (processLine ps delim i l st).processedCount =
      st.processedCount + (match lineOutcome ps delim l, ps.insertRes i with
        | .ok _, none => 1
        | _, _ => 0) ∧
    (processLine ps delim i l st).errors =
      st.errors ++ (match lineOutcome ps delim l, ps.insertRes i with
        | .error m, _ => [lineMsg i m]
        | .ok _, some m => [lineMsg i m]
        | .ok _, none => []) ∧
    (processLine ps delim i l st).inserted =
      st.inserted ++ (match lineOutcome ps delim l, ps.insertRes i with
        | .ok v, none => [v]
        | _, _ => []) ∧
    (processLine ps delim i l st).job.status = st.job.status ∧
    (processLine ps delim i l st).job.totalLines = st.job.totalLines ∧
    (processLine ps delim i l st).job.startTimeSet = st.job.startTimeSet ∧
    (processLine ps delim i l st).job.endTimeSet = st.job.endTimeSet := by
  rcases h1 : lineOutcome ps delim l with m | v
  · simp [processLine, hl, hcond, h1]
  · rcases h2 : ps.insertRes i with _ | m2
    · simp [processLine, hl, hcond, h1, h2, updateJobProgress]
    · simp [processLine, hl, hcond, h1, h2]

/-- The loop of `processIngestionJob`, started on a state that is past the
header check (or with a non-header first line), adds exactly the
classified successes, errors and writes, and leaves the job row fields it
never touches unchanged. -/
theorem goLines_spec (ps : IngestParams) (delim : Char) :
    ∀ (ls : List String) (i : Nat) (st : LoopSt),
      (∀ l ∈ ls, strTrim l ≠ "") →
      (st.isFirstLine = false ∨
        ∀ l, ls.head? = some l → isHeaderLine (strTrim l) = false) →
      (goLines ps delim i st ls).processedCount = st.processedCount + okCount ps delim i ls ∧
      (goLines ps delim i st ls).errors = st.errors ++ errorsOf ps delim i ls ∧
      (goLines ps delim i st ls).inserted = st.inserted ++ insertedOf ps delim i ls ∧
      (goLines ps delim i st ls).job.status = st.job.status ∧
      (goLines ps delim i st ls).job.totalLines = st.job.totalLines ∧
      (goLines ps delim i st ls).job.startTimeSet = st.job.startTimeSet ∧
      (goLines ps delim i st ls).job.endTimeSet = st.job.endTimeSet := by
  intro ls
  induction ls with
  | nil => intro i st _ _; simp [goLines, okCount, errorsOf, insertedOf]
  | cons l rest ih =>
    intro i st hne hfs
    have hl : strTrim l ≠ "" := hne l (List.mem_cons_self l rest)
    have hrest : ∀ x ∈ rest, strTrim x ≠ "" := fun x hx => hne x (List.mem_cons_of_mem l hx)
    have hcond : (st.isFirstLine && isHeaderLine (strTrim l)) = false := by
      rcases hfs with hf | hh
      · simp [hf]
      · simp [hh l rfl]
    obtain ⟨c1, c2, c3, c4, c5, c6, c7, c8⟩ :=
      processLine_components ps delim i l st hl hcond
    obtain ⟨e1, e2, e3, e4, e5, e6, e7⟩ :=
      ih (i + 1) (processLine ps delim i l st) hrest (Or.inl c1)
    have hgl : goLines ps delim i st (l :: rest) =
        goLines ps delim (i + 1) (processLine ps delim i l st) rest := rfl
    refine ⟨?_, ?_, ?_, ?_, ?_, ?_, ?_⟩
    · rw [hgl, e1, c2]
      simp only [okCount]
      omega
    · rw [hgl, e2, c3]
      simp only [errorsOf]
      rw [List.append_assoc]
    · rw [hgl, e3, c4]
      simp only [insertedOf]
      rw [List.append_assoc]
    · rw [hgl, e4, c5]
    · rw [hgl, e5, c6]
    · rw [hgl, e6, c7]
    · rw [hgl, e7, c8]

/-- Helper: the full worker cycle on a readable file whose first non-empty
line is not a recognized header, in terms of the per-line
classification. -/
theorem runClaimedJob_ok_spec (ps : IngestParams) (job : Job) (content : String)
    (hfile : ps.fileRead = .ok content)
    (hhd : ∀ l, (nonEmptyLines content).head? = some l →
      isHeaderLine (strTrim l) = false) :
    (runClaimedJob ps job).job.status = .COMPLETED ∧
    (runClaimedJob ps job).job.processedLines =
      ((okCount ps (detectDelimiter (nonEmptyLines content)) 0 (nonEmptyLines content) : Nat) : Int) ∧
    (runClaimedJob ps job).job.errors =
      errorsOf ps (detectDelimiter (nonEmptyLines content)) 0 (nonEmptyLines content) ∧
    (runClaimedJob ps job).job.errorLines =
      ((errorsOf ps (detectDelimiter (nonEmptyLines content)) 0 (nonEmptyLines content)).length : Int) ∧
    (runClaimedJob ps job).job.totalLines =
      some (((nonEmptyLines content).length : Int) - 1) ∧
    (runClaimedJob ps job).stored =
      insertedOf ps (detectDelimiter (nonEmptyLines content)) 0 (nonEmptyLines content) := by
  have hlines : ∀ l ∈ nonEmptyLines content, strTrim l ≠ "" := by
    intro l hl
    have hm := (List.mem_filter.mp hl).2
    simpa using hm
  obtain ⟨e1, e2, e3, e4, e5, e6, e7⟩ :=
    goLines_spec ps (detectDelimiter (nonEmptyLines content)) (nonEmptyLines content) 0
      { processedCount := 0, errors := [], inserted := [], isFirstLine := true,
        job := updateJobProgress (setJobStatus job .PROCESSING []) 0 []
                 (some (((nonEmptyLines content).length : Int) - 1)) }
      hlines (Or.inr hhd)
  simp [setJobStatus, updateJobProgress] at e1 e2 e3 e4 e5 e6 e7
  refine ⟨?_, ?_, ?_, ?_, ?_, ?_⟩ <;>
    simp [runClaimedJob, processIngestionJob, hfile, e1, e2, e3, e4, e5, e6, e7,
      setJobStatus, updateJobProgress]

/-- With every store write succeeding, `okCount` counts exactly the lines
that decode and validate successfully, independently of the index. -/
theorem okCount_all_writes (ps : IngestParams) (delim : Char)
    (hins : ps.insertRes = fun _ => none) :
    ∀ (ls : List String) (i : Nat),
      okCount ps delim i ls = (ls.filter (fun l => lineOk ps delim l)).length := by
  intro ls
  induction ls with
  | nil => intro i; simp [okCount]
  | cons l rest ih =>
    intro i
    rcases h1 : lineOutcome ps delim l with m | v
    · simp [okCount, h1, hins, lineOk, List.filter_cons, ih (i + 1)]
    · simp [okCount, h1, hins, lineOk, List.filter_cons, ih (i + 1)]
      omega

/-- With every store write succeeding, each produced error message is the
message of the failing line at its 1-based position. -/
theorem errorsOf_mem_all_writes (ps : IngestParams) (delim : Char)
    (hins : ps.insertRes = fun _ => none) :
    ∀ (ls : List String) (i : Nat) (e : String), e ∈ errorsOf ps delim i ls →
      ∃ j, j < ls.length ∧ lineOk ps delim (ls.getD j "") = false ∧
        e = lineMsg (i + j) (lineErrMsg ps delim (ls.getD j "")) := by
  intro ls
  induction ls with
  | nil => intro i e h; simp [errorsOf] at h
  | cons l rest ih =>
    intro i e h
    rcases h1 : lineOutcome ps delim l with m | v
    · rw [errorsOf] at h
      rw [h1] at h
      simp only [List.mem_append, List.mem_singleton] at h
      rcases h with he | htl
      · exact ⟨0, by simp, by simp [lineOk, h1], by simpa [lineErrMsg, h1] using he⟩
      · obtain ⟨j, hj, hok, hmsg⟩ := ih (i + 1) e htl
        refine ⟨j + 1, by simpa using Nat.succ_lt_succ hj, by simpa using hok, ?_⟩
        have harith : i + (j + 1) = i + 1 + j := by omega
        rw [harith]
        simpa using hmsg
    · rw [errorsOf] at h
      rw [h1, hins] at h
      simp only [List.nil_append] at h
      obtain ⟨j, hj, hok, hmsg⟩ := ih (i + 1) e h
      refine ⟨j + 1, by simpa using Nat.succ_lt_succ hj, by simpa using hok, ?_⟩
      have harith : i + (j + 1) = i + 1 + j := by omega
      rw [harith]
      simpa using hmsg

/-! ## C1 — partial-failure accounting of one ingestion job -/

/-- C1: over a readable file whose first non-empty line is not a
recognized header and whose store writes succeed, with K non-empty lines
of which H decode and validate successfully, the job finishes with
processedLines = H, errorLines = K - H, an errors list of length K - H
each of whose entries is the failing line's message tagged with its
1-based line number — and terminal status COMPLETED: per-line failures
never produce FAILED. -/
theorem ingestion_accounting (ps : IngestParams) (job : Job) (content : String)
    (hfile : ps.fileRead = .ok content)
    (hins : ps.insertRes = fun _ => none)
    (hhd : ∀ l, (nonEmptyLines content).head? = some l →
      isHeaderLine (strTrim l) = false) :
    (runClaimedJob ps job).job.status = .COMPLETED ∧
    (runClaimedJob ps job).job.processedLines =
      (((nonEmptyLines content).filter
        (fun l => lineOk ps (detectDelimiter (nonEmptyLines content)) l)).length : Int) ∧
    (runClaimedJob ps job).job.errorLines =
      (((nonEmptyLines content).length -
        ((nonEmptyLines content).filter
          (fun l => lineOk ps (detectDelimiter (nonEmptyLines content)) l)).length : Nat) : Int) ∧
    (runClaimedJob ps job).job.errors.length =
      (nonEmptyLines content).length -
        ((nonEmptyLines content).filter
          (fun l => lineOk ps (detectDelimiter (nonEmptyLines content)) l)).length ∧
    (∀ e ∈ (runClaimedJob ps job).job.errors,
      ∃ j, j < (nonEmptyLines content).length ∧
        lineOk ps (detectDelimiter (nonEmptyLines content))
          ((nonEmptyLines content).getD j "") = false ∧
        e = lineMsg j (lineErrMsg ps (detectDelimiter (nonEmptyLines content))
          ((nonEmptyLines content).getD j ""))) := by
  obtain ⟨h1, h2, h3, h4, h5, h6⟩ := runClaimedJob_ok_spec ps job content hfile hhd
  have hok := okCount_all_writes ps (detectDelimiter (nonEmptyLines content)) hins
    (nonEmptyLines content) 0
  have hlen := errorsOf_length_add_okCount ps (detectDelimiter (nonEmptyLines content))
    (nonEmptyLines content) 0
  have herrlen : (errorsOf ps (detectDelimiter (nonEmptyLines content)) 0
      (nonEmptyLines content)).length =
      (nonEmptyLines content).length -
        ((nonEmptyLines content).filter
          (fun l => lineOk ps (detectDelimiter (nonEmptyLines content)) l)).length := by
    omega
  refine ⟨h1, ?_, ?_, ?_, ?_⟩
  · rw [h2, hok]
  · rw [h4, herrlen]
  · rw [h3, herrlen]
  · intro e he
    rw [h3] at he
    obtain ⟨j, hj, hjok, hjmsg⟩ :=
      errorsOf_mem_all_writes ps (detectDelimiter (nonEmptyLines content)) hins
        (nonEmptyLines content) 0 e he
    exact ⟨j, hj, hjok, by simpa using hjmsg⟩

/-- Witness for `ingestion_accounting`: a two-line file with one valid and
one malformed line ends COMPLETED with processedLines 1, errorLines 1 and
the single error message tagged `Line 2`. -/
theorem ingestion_accounting_witness :
    isHeaderLine (strTrim "A,x,S0,S90") = false ∧
    (runClaimedJob mixedFileParams freshJob).job.status = .COMPLETED ∧
    (runClaimedJob mixedFileParams freshJob).job.processedLines = 1 ∧
    (runClaimedJob mixedFileParams freshJob).job.errorLines = 1 ∧
    (runClaimedJob mixedFileParams freshJob).job.errors =
      ["Line 2: Invalid format. Expected at least 4 fields, got 1"] ∧
    (runClaimedJob mixedFileParams freshJob).job.totalLines = some 1 := by
  refine ⟨by decide, ?_, by decide, by decide, by decide, by decide⟩
  exact (ingestion_accounting mixedFileParams freshJob "A,x,S0,S90\nbadline" rfl rfl
    (by
      intro l hl
      have h0 : (nonEmptyLines "A,x,S0,S90\nbadline").head? = some "A,x,S0,S90" := by decide
      rw [h0] at hl
      injection hl with hinj
      rw [← hinj]
      decide)).1

/-! ## C3 — a store-write failure is a line error, not a job failure -/

/-- C3 counterexample: with the event-store write throwing on the one
valid line, the job is NOT aborted and NOT transitioned to FAILED — the
write failure is recorded as the line-scoped error of line 1 and the job
ends COMPLETED with nothing stored. -/
theorem store_write_failure_not_fatal :
    (runClaimedJob insertFailParams freshJob).job.status = .COMPLETED ∧
    (runClaimedJob insertFailParams freshJob).job.errors =
      ["Line 1: Failed to insert events"] ∧
    (runClaimedJob insertFailParams freshJob).job.processedLines = 0 ∧
    (runClaimedJob insertFailParams freshJob).stored = [] := by
  decide

/-- C3 amended: a store write failure for a line's event is caught by the
per-line handler — recorded in the job's error list (tagged with the
1-based line number, as `errorsOf` shows) and processing continues with
the next line, the job still ending COMPLETED; only a failure outside the
per-line scope, such as the file being unreadable, aborts the job to
FAILED with that error message recorded. -/
theorem store_write_failure_is_line_scoped (ps : IngestParams) (job : Job) :
    (∀ content, ps.fileRead = .ok content →
      (∀ l, (nonEmptyLines content).head? = some l →
        isHeaderLine (strTrim l) = false) →
      (runClaimedJob ps job).job.status = .COMPLETED ∧
      (runClaimedJob ps job).job.errors =
        errorsOf ps (detectDelimiter (nonEmptyLines content)) 0 (nonEmptyLines content)) ∧
    (∀ msg, ps.fileRead = .error msg →
      (runClaimedJob ps job).job.status = .FAILED ∧
      (runClaimedJob ps job).job.errors = [msg]) := by
  constructor
  · intro content hfile hhd
    obtain ⟨h1, _, h3, _, _, _⟩ := runClaimedJob_ok_spec ps job content hfile hhd
    exact ⟨h1, h3⟩
  · intro msg hfile
    simp [runClaimedJob, processIngestionJob, hfile, setJobStatus]

/-- Witness for `store_write_failure_is_line_scoped` at a concrete
one-line file whose insert throws. -/
theorem store_write_failure_is_line_scoped_witness :
    ((runClaimedJob insertFailParams freshJob).job.status = .COMPLETED ∧
      (runClaimedJob insertFailParams freshJob).job.errors =
        errorsOf insertFailParams (detectDelimiter (nonEmptyLines "A,x,S0,S90")) 0
          (nonEmptyLines "A,x,S0,S90")) ∧
    errorsOf insertFailParams (detectDelimiter (nonEmptyLines "A,x,S0,S90")) 0
      (nonEmptyLines "A,x,S0,S90") = ["Line 1: Failed to insert events"] := by
  refine ⟨?_, by decide⟩
  exact (store_write_failure_is_line_scoped insertFailParams freshJob).1 "A,x,S0,S90" rfl
    (by
      intro l hl
      have h0 : (nonEmptyLines "A,x,S0,S90").head? = some "A,x,S0,S90" := by decide
      rw [h0] at hl
      injection hl with hinj
      rw [← hinj]
      decide)

/-! ## C10 — stored events have strictly positive duration -/

/-- Strictly ordered dates give a ceiling duration of at least one
minute. -/
theorem one_le_ceil_minutes (s e : Int) (h : ¬ s ≥ e) :
    s < e ∧ (1 : Int) ≤ ((((e - s).toNat + 59999) / 60000 : Nat) : Int) := by
  refine ⟨by omega, ?_⟩
  have h1 : 1 ≤ (e - s).toNat := by omega
  have h2 : 1 ≤ ((e - s).toNat + 59999) / 60000 :=
    (Nat.one_le_div_iff (by norm_num)).mpr (by omega)
  exact_mod_cast h2

/-- Validation only accepts strictly increasing dates and computes a
duration of at least one minute. -/
theorem validate_bounds (jsD : String → Option Int) (d : EventData) (v : ValidEvent)
    (h : validateAndTransformEvent jsD d = .ok v) :
    v.startDate < v.endDate ∧ 1 ≤ v.durationMinutes := by
  unfold validateAndTransformEvent at h
  repeat' split at h
  all_goals
    first
      | exact Except.noConfusion h
      | (injection h with hv
         rw [← hv]
         exact one_le_ceil_minutes _ _ (by assumption))

/-- A successful line outcome is a successful validation. -/
theorem lineOutcome_ok (ps : IngestParams) (delim : Char) (l : String) (v : ValidEvent)
    (h : lineOutcome ps delim l = .ok v) :
    ∃ d, validateAndTransformEvent ps.jsDate d = .ok v := by
  simp only [lineOutcome] at h
  split at h
  · exact ⟨_, h⟩
  · rcases hpe : parseEventLine ps.jsonAny (strTrim l) delim with m | d
    · rw [hpe] at h
      simp [Except.bind] at h
    · rw [hpe] at h
      exact ⟨d, h⟩

/-- The loop only ever appends validation outputs to the stored list. -/
theorem goLines_inserted_bounds (ps : IngestParams) (delim : Char) :
    ∀ (ls : List String) (i : Nat) (st : LoopSt),
      (∀ v ∈ st.inserted, v.startDate < v.endDate ∧ 1 ≤ v.durationMinutes) →
      ∀ v ∈ (goLines ps delim i st ls).inserted,
        v.startDate < v.endDate ∧ 1 ≤ v.durationMinutes := by
  intro ls
  induction ls with
  | nil => intro i st hinv; simpa [goLines] using hinv
  | cons l rest ih =>
    intro i st hinv
    apply ih (i + 1) (processLine ps delim i l st)
    intro v hv
    unfold processLine at hv
    split at hv
    · exact hinv v hv
    · split at hv
      · exact hinv v hv
      · split at hv
        · exact hinv v hv
        · exact hinv v hv
        · rename_i v0 heq _
          simp only [List.mem_append, List.mem_singleton] at hv
          rcases hv with hv | hv
          · exact hinv v hv
          · obtain ⟨d, hd⟩ := lineOutcome_ok ps delim l v0 heq
            rw [hv]
            exact validate_bounds ps.jsDate d v0 hd

/-- C10: every event the ingestion pipeline writes to the event store
satisfies endDate strictly greater than startDate and
durationMinutes >= 1 — strictly stronger than the stored-schema
constraint `end_date >= start_date`. -/
theorem stored_event_bounds (ps : IngestParams) (job : Job) (v : ValidEvent)
    (hv : v ∈ (runClaimedJob ps job).stored) :
    v.startDate < v.endDate ∧ 1 ≤ v.durationMinutes := by
  rcases hfr : ps.fileRead with m | content
  · simp [runClaimedJob, processIngestionJob, hfr] at hv
  · simp [runClaimedJob, processIngestionJob, hfr] at hv
    exact goLines_inserted_bounds ps _ (nonEmptyLines content) 0 _ (by simp) v hv

/-- Witness for `stored_event_bounds`: the one event stored from a
single-valid-line file has a 90-minute duration over a strictly positive
interval. -/
theorem stored_event_bounds_witness :
    (({ eventId := none, eventName := "A", description := some "x", startDate := 0,
        endDate := 5400000, durationMinutes := 90, parentEventId := none,
        metadata := none : ValidEvent }) ∈ (runClaimedJob goodLineParams freshJob).stored) ∧
    ((0 : Int) < 5400000 ∧ (1 : Int) ≤ 90) :=
  ⟨by decide,
    stored_event_bounds goodLineParams freshJob
      { eventId := none, eventName := "A", description := some "x", startDate := 0,
        endDate := 5400000, durationMinutes := 90, parentEventId := none,
        metadata := none } (by decide)⟩

/-! ## C4 — which event the gap query records as "preceding" -/

/-- `a` immediately precedes `b` in the list `l`. -/
def Adjacent {α : Type} (a b : α) (l : List α) : Prop :=
  ∃ l1 l2, l = l1 ++ a :: b :: l2

/-- Membership under stable insertion. -/
theorem mem_insertSorted {α : Type} (le : α → α → Bool) (a x : α) :
    ∀ l, x ∈ insertSorted le a l ↔ x = a ∨ x ∈ l := by
  intro l
  induction l with
  | nil => simp [insertSorted]
  | cons b l ih =>
    simp only [insertSorted]
    split
    · simp
    · simp [ih]
      tauto

/-- Membership under the insertion-sort model of `ORDER BY`. -/
theorem mem_sortBy {α : Type} (le : α → α → Bool) (x : α) :
    ∀ l, x ∈ sortBy le l ↔ x ∈ l := by
  intro l
  induction l with
  | nil => simp [sortBy]
  | cons a l ih => simp [sortBy, mem_insertSorted, ih]

/-- Every row of the first `LAG` scan is built from the scan's seed and
the list head, or from an adjacent pair of the list. -/
theorem lagRows_mem (r : CalcRow) :
    ∀ (s : List GEvent) (prev : Option GEvent), r ∈ lagRows prev s →
      (∃ b l2, s = b :: l2 ∧ r = mkCalcRow prev b) ∨
      (∃ a b, Adjacent a b s ∧ r = mkCalcRow (some a) b) := by
  intro s
  induction s with
  | nil => intro prev h; simp [lagRows] at h
  | cons e rest ih =>
    intro prev h
    rw [lagRows] at h
    rcases List.mem_cons.mp h with he | htl
    · exact Or.inl ⟨e, rest, rfl, he⟩
    · rcases ih (some e) htl with ⟨b, l2, hrest, hr⟩ | ⟨a, b, ⟨l1, l2, hadj⟩, hr⟩
      · exact Or.inr ⟨e, b, ⟨[], l2, by simp [hrest]⟩, hr⟩
      · exact Or.inr ⟨a, b, ⟨e :: l1, l2, by simp [hadj]⟩, hr⟩

/-- Every output row of the second `LAG` scan carries the gap fields of
some row of the filtered list it scans. -/
theorem lagPrec_mem (g : GapRow) :
    ∀ (rows : List CalcRow) (prev : Option CalcRow), g ∈ lagPrec prev rows →
      ∃ r, r ∈ rows ∧ g.gap_start = r.prevEnd ∧ g.gap_end = r.event.start_date ∧
        g.gapMs = r.gapMs ∧ g.following_id = r.event.event_id ∧
        g.following_name = r.event.event_name := by
  intro rows
  induction rows with
  | nil => intro prev h; simp [lagPrec] at h
  | cons r0 rest ih =>
    intro prev h
    rw [lagPrec] at h
    rcases List.mem_cons.mp h with he | htl
    · refine ⟨r0, List.mem_cons_self r0 rest, ?_, ?_, ?_, ?_, ?_⟩ <;> (rw [he]; rfl)
    · obtain ⟨r, hr, h1, h2, h3, h4, h5⟩ := ih (some r0) htl
      exact ⟨r, List.mem_cons_of_mem r0 hr, h1, h2, h3, h4, h5⟩

/-- The `preceding` column of the second `LAG` scan is the scan's own
`following` column shifted down by one row, seeded with the scan seed. -/
theorem lagPrec_preceding :
    ∀ (rows : List CalcRow) (prev : Option CalcRow),
      (lagPrec prev rows).map (fun g => g.preceding) =
        ((prev.map fun p => (p.event.event_id, p.event.event_name)) ::
          rows.map (fun r => some (r.event.event_id, r.event.event_name))).take
          rows.length := by
  intro rows
  induction rows with
  | nil => intro prev; simp [lagPrec]
  | cons r rest ih =>
    intro prev
    simp only [lagPrec, List.map_cons, List.length_cons, List.take_succ_cons]
    rw [ih (some r)]
    rfl

/-- The events of `exEvents`: A covers the first ten minutes, B lies
inside A (producing no positive gap), C starts at minute 20 — so the only
positive gap runs from B's end (minute 4) to C's start. -/
def exEvents : List GEvent :=
  [ { event_id := "A", event_name := "Alpha", start_date := 0, end_date := 600000 },
    { event_id := "B", event_name := "Beta", start_date := 120000, end_date := 240000 },
    { event_id := "C", event_name := "Gamma", start_date := 1200000, end_date := 1800000 } ]

/-- C4 counterexample: in `exEvents` the single returned gap starts at
240000 — the end of event B, the immediately preceding event in start
order — yet its recorded `precedingEvent` is null, not B: the
`LAG(event_id)` feeding `preceding_event_id` is evaluated over only the
positive-gap rows, and gap-free B is no longer among them. -/
theorem gap_preceding_counterexample :
    findTemporalGaps exEvents 0 1800000 =
      .ok (some { gapStart := some 240000, gapEnd := 1200000, gapDurationMinutes := 16,
                  precedingEvent := none, followingEvent := ("C", "Gamma") },
           [{ gapStart := some 240000, gapEnd := 1200000, gapDurationMinutes := 16,
              precedingEvent := none, followingEvent := ("C", "Gamma") }]) ∧
    ({ event_id := "B", event_name := "Beta", start_date := 120000, end_date := 240000 :
        GEvent } ∈ containedEvents exEvents 0 1800000) ∧
    ({ event_id := "B", event_name := "Beta", start_date := 120000, end_date := 240000 :
        GEvent }).end_date = 240000 := by
  decide

/-- C4 amended: every gap returned by the query does start at the end of
the immediately preceding event in ascending start order among the
window's contained events (and ends at the following event's start), but
the recorded `precedingEvent` is the `LAG` over only the positive-gap
rows: null for the earliest positive gap and otherwise the previous
positive-gap row's following event — which need not be the event whose
end time equals the gap's start when gap-free events lie between. -/
theorem gap_preceding_semantics (events : List GEvent) (ws we : Int) :
    (∀ g ∈ findLargestTemporalGap events ws we,
      ∃ a b, Adjacent a b (sortByStart (containedEvents events ws we)) ∧
        a.end_date < b.start_date ∧
        g.gap_start = some a.end_date ∧
        g.gap_end = b.start_date ∧
        g.gapMs = b.start_date - a.end_date ∧
        g.following_id = b.event_id ∧
        g.following_name = b.event_name) ∧
    ((lagPrec none (posRows events ws we)).map (fun g => g.preceding) =
      (none :: (posRows events ws we).map
        (fun r => some (r.event.event_id, r.event.event_name))).take
        (posRows events ws we).length) := by
  constructor
  · intro g hg
    have hg2 : g ∈ lagPrec none (posRows events ws we) :=
      (mem_sortBy _ g _).mp hg
    obtain ⟨r, hr, h1, h2, h3, h4, h5⟩ := lagPrec_mem g (posRows events ws we) none hg2
    have hrpos := List.mem_filter.mp hr
    have hrlag : r ∈ lagRows none (sortByStart (containedEvents events ws we)) := hrpos.1
    have hrgap : r.gapMs > 0 := by simpa using hrpos.2
    rcases lagRows_mem r _ none hrlag with ⟨b, l2, _, hrb⟩ | ⟨a, b, hadj, hrb⟩
    · rw [hrb] at hrgap
      simp [mkCalcRow] at hrgap
    · have hpe : (mkCalcRow (some a) b).prevEnd = some a.end_date := by simp [mkCalcRow]
      have hev : (mkCalcRow (some a) b).event = b := by simp [mkCalcRow]
      have hgap : (mkCalcRow (some a) b).gapMs =
          if b.start_date > a.end_date then b.start_date - a.end_date else 0 := by
        simp [mkCalcRow]
      by_cases hlt : b.start_date > a.end_date
      · refine ⟨a, b, hadj, hlt, ?_, ?_, ?_, ?_, ?_⟩
        · rw [h1, hrb, hpe]
        · rw [h2, hrb, hev]
        · rw [h3, hrb, hgap, if_pos hlt]
        · rw [h4, hrb, hev]
        · rw [h5, hrb, hev]
      · rw [hrb, hgap, if_neg hlt] at hrgap
        exact absurd hrgap (by simp)
  · exact lagPrec_preceding (posRows events ws we) none

/-- The single gap row of `exEvents`. -/
def exGapRow : GapRow :=
  { gap_start := some 240000, gap_end := 1200000, gapMs := 960000,
    preceding := none, following_id := "C", following_name := "Gamma" }

/-- Witness for `gap_preceding_semantics` at the concrete three-event
window. -/
theorem gap_preceding_semantics_witness :
    (exGapRow ∈ findLargestTemporalGap exEvents 0 1800000) ∧
    (∃ a b, Adjacent a b (sortByStart (containedEvents exEvents 0 1800000)) ∧
      a.end_date < b.start_date ∧
      exGapRow.gap_start = some a.end_date ∧
      exGapRow.gap_end = b.start_date ∧
      exGapRow.gapMs = b.start_date - a.end_date ∧
      exGapRow.following_id = b.event_id ∧
      exGapRow.following_name = b.event_name) :=
  ⟨by decide, (gap_preceding_semantics exEvents 0 1800000).1 exGapRow (by decide)⟩

end Chronologicon
